import Mathlib

/-!
Shallow embedding of the RAG backend (document ingestion, chunking,
retrieval scoring, prompt building, streaming generation, deletion)
and proofs of the specified properties.

Sources embedded:
* `app/services/ingestion.py`  — `IngestionService`
* `app/services/retrieval.py`  — `RetrievalService`
* `app/services/generation.py` — `GenerationService`
* `app/api/chat.py`            — `event_generator`

Python strings are modelled as `String` / `List Char`, bytes as
`List ℕ` (each `< 256`), machine words as `ℕ` reduced `% 2^32`,
and the ChromaDB collection as a list of records.
-/

namespace Rag

/-- Whitespace test matching Python's `\s` on the ASCII range
(space, tab, newline, carriage return, vertical tab, form feed).
The source's regexes also match the rare non-ASCII Unicode spaces;
the claims under study only involve ASCII text. -/
def isPySpace (c : Char) : Bool :=
  c = ' ' || c = '\t' || c = '\n' || c = '\r' || c = '\x0b' || c = '\x0c'

/-- Auxiliary for `collapseWs`: `prevSpace` records whether the previous
character was whitespace (in which case the current run's single
replacement space has already been emitted). -/
def collapseWsAux : Bool → List Char → List Char
  | _, [] => []
  | prevSpace, c :: cs =>
    if isPySpace c then
      if prevSpace then collapseWsAux true cs
      else ' ' :: collapseWsAux true cs
    else c :: collapseWsAux false cs

/-- `re.sub(r"\s+", " ", text)`: replace every maximal whitespace run by
a single space (ingestion.py line 62). -/
def collapseWs (l : List Char) : List Char := collapseWsAux false l

/-- Python `str.strip()` on a character list: drop whitespace from both
ends. -/
def pyStrip (l : List Char) : List Char :=
  (l.dropWhile isPySpace).rdropWhile isPySpace

/-- Python `str.strip()` on a string. -/
def pyStripS (s : String) : String := String.mk (pyStrip s.data)

mutual

/-- Auxiliary for `splitParas`; `acc` is the current segment, reversed. -/
def splitParasAux (acc : List Char) : List Char → List (List Char)
  | [] => [acc.reverse]
  | '\n' :: '\n' :: rest => acc.reverse :: splitParasSkip rest
  | c :: rest => splitParasAux (c :: acc) rest

/-- Consume the remainder of a maximal newline run, then resume scanning
with a fresh segment. -/
def splitParasSkip : List Char → List (List Char)
  | [] => [[]]
  | c :: rest =>
    if c = '\n' then splitParasSkip rest else splitParasAux [c] rest

end

/-- `re.split(r"\n\n+", text)`: split on maximal runs of two or more
newlines (ingestion.py line 68). -/
def splitParas (l : List Char) : List (List Char) := splitParasAux [] l

/-- Is this a sentence-ending punctuation character (`.`, `!`, `?`)? -/
def isSentEnd (c : Char) : Bool := c = '.' || c = '!' || c = '?'

mutual

/-- Auxiliary for `splitSentences`; `acc` is the current segment, reversed. -/
def splitSentAux (acc : List Char) : List Char → List (List Char)
  | [] => [acc.reverse]
  | c :: rest =>
    if isSentEnd c ∧ (rest.head?.elim false isPySpace) then
      (c :: acc).reverse :: splitSentSkip rest
    else splitSentAux (c :: acc) rest

/-- Consume the remainder of a maximal whitespace separator run, then
resume scanning with a fresh segment (re-checking the lookbehind for the
first character after the run). -/
def splitSentSkip : List Char → List (List Char)
  | [] => [[]]
  | c :: rest =>
    if isPySpace c then splitSentSkip rest
    else if isSentEnd c ∧ (rest.head?.elim false isPySpace) then
      [c] :: splitSentSkip rest
    else splitSentAux [c] rest

end

/-- `re.split(r"(?<=[.!?])\s+", paragraph)`: split on maximal whitespace
runs that immediately follow `.`, `!` or `?` (ingestion.py line 84). -/
def splitSentences (l : List Char) : List (List Char) := splitSentAux [] l

/-- Python `s[-k:]` for `k > 0`: the trailing `min k (length)` characters. -/
def tailChars (k : ℕ) (l : List Char) : List Char := l.drop (l.length - k)

/-- Chunker loop state: flushed chunks so far and the accumulating buffer
(`chunks` and `current_chunk` in ingestion.py lines 70–71). -/
structure ChunkSt where
  chunks : List (List Char)
  buf : List Char
  deriving Repr, DecidableEq

/-- Flush the buffer as a completed (stripped) chunk and reseed the buffer
with its trailing `overlapChars` characters
(`current_chunk[-overlap_chars:] if overlap_chars else ""`;
ingestion.py lines 87–90 and 94–96).  Note the reseed is taken from the
buffer *before* stripping. -/
def flushReseed (overlapChars : ℕ) (st : ChunkSt) : ChunkSt :=
  ⟨st.chunks ++ [pyStrip st.buf],
   if overlapChars = 0 then [] else tailChars overlapChars st.buf⟩

/-- One iteration of the sentence loop (ingestion.py lines 85–91):
flush when appending would exceed the budget and the buffer is non-empty,
then append `" " + sentence` unconditionally. -/
def sentStep (targetChars overlapChars : ℕ) (st : ChunkSt) (s : List Char) :
    ChunkSt :=
  let st' :=
    if targetChars < st.buf.length + s.length ∧ st.buf ≠ [] then
      flushReseed overlapChars st
    else st
  ⟨st'.chunks, st'.buf ++ ' ' :: s⟩

/-- One iteration of the paragraph loop (ingestion.py lines 77–97).
An oversized paragraph is split into sentences; otherwise the paragraph
is appended behind a blank-line separator, flushing first if needed. -/
def paraStep (targetChars overlapChars : ℕ) (st : ChunkSt) (p : List Char) :
    ChunkSt :=
  let p := pyStrip p
  if p = [] then st
  else if targetChars < p.length then
    (splitSentences p).foldl (sentStep targetChars overlapChars) st
  else
    let st' :=
      if targetChars < st.buf.length + p.length ∧ st.buf ≠ [] then
        flushReseed overlapChars st
      else st
    ⟨st'.chunks, st'.buf ++ '\n' :: '\n' :: p⟩

/-- `IngestionService.chunk_text` (ingestion.py lines 59–103), parametrised
by the settings `chunk_size` and `chunk_overlap` (config.py defaults are
500 and 50). -/
def chunk_text (chunkSize chunkOverlap : ℕ) (text : String) : List String :=
  let t := pyStrip (collapseWs text.data)
  if t = [] then []
  else
    let targetChars := chunkSize * 4
    let overlapChars := chunkOverlap * 4
    let paras := splitParas t
    let fin := paras.foldl (paraStep targetChars overlapChars) ⟨[], []⟩
    let chunks :=
      if pyStrip fin.buf ≠ [] then fin.chunks ++ [pyStrip fin.buf]
      else fin.chunks
    chunks.map String.mk

/-- The paragraph list the code actually iterates over: the split on runs
of two-or-more newlines is applied to the already whitespace-collapsed,
stripped text, and the loop strips each paragraph
(ingestion.py lines 62, 68 and 78). -/
def paragraphsCode (text : String) : List (List Char) :=
  (splitParas (pyStrip (collapseWs text.data))).map pyStrip

/-- Following the spec's words, for comparison with `paragraphsCode`:
split into paragraphs on runs of two-or-more newlines applied to the
*original* text, and trim each paragraph. -/
def paragraphsSpec (text : String) : List (List Char) :=
  (splitParas text.data).map pyStrip

/-! ### MD5 (`hashlib.md5`), over byte lists, words as `ℕ` mod `2^32` -/

/-- `2^32`, the word modulus. -/
def M32 : ℕ := 4294967296

/-- 32-bit left rotation (shift amounts used by MD5 are in `1..31`). -/
def rotl32 (x s : ℕ) : ℕ := (x * 2 ^ s + x / 2 ^ (32 - s)) % M32

/-- 32-bit bitwise complement. -/
def bnot32 (x : ℕ) : ℕ := x ^^^ 0xFFFFFFFF

/-- The MD5 sine-derived constant table `K[0..63]`. -/
def md5K : List ℕ :=
  [0xd76aa478, 0xe8c7b756, 0x242070db, 0xc1bdceee,
   0xf57c0faf, 0x4787c62a, 0xa8304613, 0xfd469501,
   0x698098d8, 0x8b44f7af, 0xffff5bb1, 0x895cd7be,
   0x6b901122, 0xfd987193, 0xa679438e, 0x49b40821,
   0xf61e2562, 0xc040b340, 0x265e5a51, 0xe9b6c7aa,
   0xd62f105d, 0x02441453, 0xd8a1e681, 0xe7d3fbc8,
   0x21e1cde6, 0xc33707d6, 0xf4d50d87, 0x455a14ed,
   0xa9e3e905, 0xfcefa3f8, 0x676f02d9, 0x8d2a4c8a,
   0xfffa3942, 0x8771f681, 0x6d9d6122, 0xfde5380c,
   0xa4beea44, 0x4bdecfa9, 0xf6bb4b60, 0xbebfbc70,
   0x289b7ec6, 0xeaa127fa, 0xd4ef3085, 0x04881d05,
   0xd9d4d039, 0xe6db99e5, 0x1fa27cf8, 0xc4ac5665,
   0xf4292244, 0x432aff97, 0xab9423a7, 0xfc93a039,
   0x655b59c3, 0x8f0ccc92, 0xffeff47d, 0x85845dd1,
   0x6fa87e4f, 0xfe2ce6e0, 0xa3014314, 0x4e0811a1,
   0xf7537e82, 0xbd3af235, 0x2ad7d2bb, 0xeb86d391]

/-- The MD5 per-operation shift table `S[0..63]`. -/
def md5S : List ℕ :=
  [7, 12, 17, 22, 7, 12, 17, 22, 7, 12, 17, 22, 7, 12, 17, 22,
   5, 9, 14, 20, 5, 9, 14, 20, 5, 9, 14, 20, 5, 9, 14, 20,
   4, 11, 16, 23, 4, 11, 16, 23, 4, 11, 16, 23, 4, 11, 16, 23,
   6, 10, 15, 21, 6, 10, 15, 21, 6, 10, 15, 21, 6, 10, 15, 21]

/-- Little-endian 32-bit word from the first four bytes of a list. -/
def leWord (bs : List ℕ) : ℕ :=
  bs.getD 0 0 + bs.getD 1 0 * 256 + bs.getD 2 0 * 65536 + bs.getD 3 0 * 16777216

/-- Little-endian 4-byte serialization of a 32-bit word. -/
def wordLE (w : ℕ) : List ℕ :=
  [w % 256, w / 256 % 256, w / 65536 % 256, w / 16777216 % 256]

/-- One of the 64 MD5 operations; state is `(A, B, C, D)`. -/
def md5Op (M : List ℕ) (st : ℕ × ℕ × ℕ × ℕ) (i : ℕ) : ℕ × ℕ × ℕ × ℕ :=
  let (a, b, c, d) := st
  let f :=
    if i < 16 then (b &&& c) ||| (bnot32 b &&& d)
    else if i < 32 then (d &&& b) ||| (bnot32 d &&& c)
    else if i < 48 then b ^^^ c ^^^ d
    else c ^^^ (b ||| bnot32 d)
  let g :=
    if i < 16 then i
    else if i < 32 then (5 * i + 1) % 16
    else if i < 48 then (3 * i + 5) % 16
    else 7 * i % 16
  let fv := (f + a + md5K.getD i 0 + M.getD g 0) % M32
  (d, (b + rotl32 fv (md5S.getD i 0)) % M32, b, c)

/-- Process one padded 64-byte block. -/
def md5Block (st : ℕ × ℕ × ℕ × ℕ) (block : List ℕ) : ℕ × ℕ × ℕ × ℕ :=
  let M := (List.range 16).map fun j => leWord (block.drop (4 * j))
  let (a, b, c, d) := (List.range 64).foldl (md5Op M) st
  ((st.1 + a) % M32, (st.2.1 + b) % M32, (st.2.2.1 + c) % M32,
   (st.2.2.2 + d) % M32)

/-- MD5 padding: `0x80`, zeros to 56 mod 64, then the 64-bit little-endian
bit length. -/
def md5Pad (msg : List ℕ) : List ℕ :=
  let padLen := (119 - msg.length % 64) % 64
  let bitLen := msg.length * 8 % 2 ^ 64
  msg ++ 0x80 :: List.replicate padLen 0 ++
    (List.range 8).map fun i => bitLen / 2 ^ (8 * i) % 256

/-- Auxiliary for `toBlocks`: `acc` is the current block, reversed. -/
def toBlocksAux (acc : List ℕ) : List ℕ → List (List ℕ)
  | [] => if acc = [] then [] else [acc.reverse]
  | b :: rest =>
    if acc.length = 63 then (b :: acc).reverse :: toBlocksAux [] rest
    else toBlocksAux (b :: acc) rest

/-- Split a byte list into 64-byte blocks (the padded input's length is a
multiple of 64, so every block is full). -/
def toBlocks (l : List ℕ) : List (List ℕ) := toBlocksAux [] l

/-- The 16-byte MD5 digest of a byte list. -/
def md5Bytes (msg : List ℕ) : List ℕ :=
  let st := (toBlocks (md5Pad msg)).foldl md5Block
    (0x67452301, 0xefcdab89, 0x98badcfe, 0x10325476)
  wordLE st.1 ++ wordLE st.2.1 ++ wordLE st.2.2.1 ++ wordLE st.2.2.2

/-- Lowercase hex digit for `n < 16`. -/
def hexDigit (n : ℕ) : Char := "0123456789abcdef".data.getD n '0'

/-- Two-digit lowercase hex rendering of a byte. -/
def byteHex (b : ℕ) : List Char := [hexDigit (b / 16), hexDigit (b % 16)]

/-- `hashlib.md5(bytes).hexdigest()`: 32 lowercase hex characters. -/
def md5Hex (msg : List ℕ) : String := String.mk ((md5Bytes msg).flatMap byteHex)

/-! ### UTF-8 (Python `str.encode()` / `bytes.decode("utf-8")`) -/

/-- Standard UTF-8 encoding of one scalar value (Lean `Char` excludes
surrogates, like Python `str` code points produced by decoding). -/
def utf8EncodeChar (c : Char) : List ℕ :=
  let n := c.toNat
  if n < 0x80 then [n]
  else if n < 0x800 then [0xC0 + n / 64, 0x80 + n % 64]
  else if n < 0x10000 then
    [0xE0 + n / 4096, 0x80 + n / 64 % 64, 0x80 + n % 64]
  else
    [0xF0 + n / 262144, 0x80 + n / 4096 % 64, 0x80 + n / 64 % 64,
     0x80 + n % 64]

/-- `str.encode()` (UTF-8). -/
def utf8Encode (s : String) : List ℕ := s.data.flatMap utf8EncodeChar

/-- Is `b` a UTF-8 continuation byte? -/
def utf8Cont (b : ℕ) : Bool := 0x80 ≤ b ∧ b ≤ 0xBF

/-- Strict UTF-8 decoding, as Python's `bytes.decode("utf-8")`: rejects
stray/invalid lead bytes, truncated sequences, overlong forms,
surrogates and values above `0x10FFFF`; `none` models
`UnicodeDecodeError`. -/
def decodeUtf8 : List ℕ → Option (List Char)
  | [] => some []
  | b :: rest =>
    if b < 0x80 then (decodeUtf8 rest).map (Char.ofNat b :: ·)
    else if 0xC2 ≤ b ∧ b ≤ 0xDF then
      match rest with
      | b2 :: rest2 =>
        if utf8Cont b2 then
          (decodeUtf8 rest2).map (Char.ofNat ((b - 0xC0) * 64 + (b2 - 0x80)) :: ·)
        else none
      | [] => none
    else if 0xE0 ≤ b ∧ b ≤ 0xEF then
      match rest with
      | b2 :: b3 :: rest3 =>
        let lo2 := if b = 0xE0 then 0xA0 else 0x80
        let hi2 := if b = 0xED then 0x9F else 0xBF
        if lo2 ≤ b2 ∧ b2 ≤ hi2 ∧ utf8Cont b3 then
          (decodeUtf8 rest3).map
            (Char.ofNat ((b - 0xE0) * 4096 + (b2 - 0x80) * 64 + (b3 - 0x80)) :: ·)
        else none
      | _ => none
    else if 0xF0 ≤ b ∧ b ≤ 0xF4 then
      match rest with
      | b2 :: b3 :: b4 :: rest4 =>
        let lo2 := if b = 0xF0 then 0x90 else 0x80
        let hi2 := if b = 0xF4 then 0x8F else 0xBF
        if lo2 ≤ b2 ∧ b2 ≤ hi2 ∧ utf8Cont b3 ∧ utf8Cont b4 then
          (decodeUtf8 rest4).map
            (Char.ofNat ((b - 0xF0) * 262144 + (b2 - 0x80) * 4096 +
              (b3 - 0x80) * 64 + (b4 - 0x80)) :: ·)
        else none
      | _ => none
    else none

/-! ### Document ids (`IngestionService.generate_document_id`) -/

/-- `pathlib`'s `Path(filename).name`: the part after the last slash. -/
def pathName (filename : String) : List Char :=
  (filename.data.reverse.takeWhile (· ≠ '/')).reverse

/-- `pathlib`'s `Path(filename).stem`: drop the last extension, where an
extension requires a dot that is neither the first nor the last character
of the name. -/
def pathStem (filename : String) : String :=
  let name := pathName filename
  let i := name.length - 1 - name.reverse.indexOf '.'
  if '.' ∈ name ∧ 0 < i ∧ i < name.length - 1 then String.mk (name.take i)
  else String.mk name

/-- `pathlib`'s `Path(filename).suffix`: the last extension including its
dot, or `""`. -/
def pathSuffix (filename : String) : String :=
  let name := pathName filename
  let i := name.length - 1 - name.reverse.indexOf '.'
  if '.' ∈ name ∧ 0 < i ∧ i < name.length - 1 then String.mk (name.drop i)
  else ""

/-- `re.sub(r"[^a-zA-Z0-9]", "_", ·)` on one character. -/
def sanitizeChar (c : Char) : Char :=
  if ('a' ≤ c ∧ c ≤ 'z') ∨ ('A' ≤ c ∧ c ≤ 'Z') ∨ ('0' ≤ c ∧ c ≤ '9') then c
  else '_'

/-- The sanitized, 20-character-truncated filename stem
(ingestion.py line 120). -/
def safeStem (filename : String) : String :=
  String.mk (((pathStem filename).data.map sanitizeChar).take 20)

/-- The 8-hex-character content-hash suffix (ingestion.py line 119);
`hexdigest()[:8]` slices code points, i.e. `List.take` on the data. -/
def hashSuffix (content : String) : String :=
  String.mk ((md5Hex (utf8Encode content)).data.take 8)

/-- `IngestionService.generate_document_id` (ingestion.py lines 117–121). -/
def generate_document_id (filename content : String) : String :=
  safeStem filename ++ "_" ++ hashSuffix content

/-! ### Vector store, file registry, and the ingestion pipeline -/

/-- One ChromaDB record, as written by `collection.add` in
`ingest_document` (ingestion.py lines 152–169): its id, embedding,
document text and metadata fields. -/
structure VecRecord where
  id : String
  embedding : List ℚ
  content : String
  document_id : String
  document_name : String
  chunk_index : ℕ
  total_chunks : ℕ
  deriving Repr, DecidableEq

/-- The collection is a list of records. -/
abbrev Store := List VecRecord

/-- The upload directory, as the list of file names present (contents are
irrelevant to the claims; names are unique, so writes insert). -/
abbrev FileSys := List String

/-- Write a file name into the directory (`write_bytes` / `write_text`
overwrite, so an existing name stays put). -/
def writeFile (n : String) (fs : FileSys) : FileSys :=
  if fs.contains n then fs else fs ++ [n]

/-- `DocumentInfo` (schemas.py): the registry record returned by
`ingest_document`; `uploaded_at` is modelled as an abstract clock value. -/
structure DocumentInfo where
  id : String
  filename : String
  file_type : String
  chunk_count : ℕ
  uploaded_at : ℕ
  file_size : ℕ
  deriving Repr, DecidableEq

/-- The errors `IngestionService` raises: the three `ValueError`s of
extract/ingest plus the `UnicodeDecodeError` that `bytes.decode("utf-8")`
raises inside `_extract_txt`. -/
inductive IngestError where
  | unsupportedFileType (ext : String)
  | emptyContent
  | chunkingFailed
  | unicodeDecodeError
  deriving Repr, DecidableEq

/-- Is this error one of the three client-input errors of the spec's error
taxonomy (`UnsupportedFileType`, `EmptyContent`, `ChunkingFailed`)? -/
def IngestError.inTaxonomy : IngestError → Bool
  | .unsupportedFileType _ => true
  | .emptyContent => true
  | .chunkingFailed => true
  | .unicodeDecodeError => false

/-- Python `str.lower()` (ASCII range; extensions here are ASCII). -/
def lowerS (s : String) : String := String.mk (s.data.map Char.toLower)

/-- `IngestionService.extract_text` (ingestion.py lines 31–57).
`_extract_pdf` delegates to the external `pypdf` reader, modelled by the
parameter `pdfExtract`; `_extract_txt` decodes the bytes as strict UTF-8. -/
def extract_text (pdfExtract : List ℕ → Except IngestError String)
    (fileBytes : List ℕ) (filename : String) : Except IngestError String :=
  let ext := lowerS (pathSuffix filename)
  if ext = ".pdf" then pdfExtract fileBytes
  else if ext = ".txt" then
    match decodeUtf8 fileBytes with
    | some cs => .ok (String.mk cs)
    | none => .error .unicodeDecodeError
  else .error (.unsupportedFileType ext)

/-- `Path(filename).suffix.lower().lstrip(".")` (ingestion.py line 178). -/
def fileTypeOf (filename : String) : String :=
  String.mk ((lowerS (pathSuffix filename)).data.dropWhile (· = '.'))

/-- `IngestionService.ingest_document` (ingestion.py lines 123–189),
parametrised by the external collaborators: `pdfExtract` (pypdf) and
`embedFn` (the Mistral embeddings batch call, order-preserving, one
embedding per input), by the chunking settings, and by the clock value
`now`.  Returns the `DocumentInfo` and the updated store and directory. -/
def ingest_document (pdfExtract : List ℕ → Except IngestError String)
    (embedFn : List String → List (List ℚ)) (chunkSize chunkOverlap : ℕ)
    (now : ℕ) (fileBytes : List ℕ) (filename : String) (fileSize : ℕ)
    (store : Store) (files : FileSys) :
    Except IngestError (DocumentInfo × Store × FileSys) :=
  match extract_text pdfExtract fileBytes filename with
  | .error e => .error e
  | .ok text =>
    if pyStripS text = "" then .error .emptyContent
    else
      let doc_id := generate_document_id filename text
      let existingIds :=
        (store.filter fun r => r.document_id = doc_id).map (·.id)
      let store := store.filter fun r => decide (r.id ∉ existingIds)
      let chunks := chunk_text chunkSize chunkOverlap text
      if chunks = [] then .error .chunkingFailed
      else
        let embeddings := embedFn chunks
        let n := chunks.length
        let records := (List.range n).map fun i =>
          { id := doc_id ++ "_chunk_" ++ toString i
            embedding := embeddings.getD i []
            content := chunks.getD i ""
            document_id := doc_id
            document_name := filename
            chunk_index := i
            total_chunks := n : VecRecord }
        let store := store ++ records
        let files := writeFile (doc_id ++ "_" ++ filename) files
        let files := writeFile (doc_id ++ ".json") files
        .ok (⟨doc_id, filename, fileTypeOf filename, n, now, fileSize⟩,
          store, files)

/-- Number of records in the store whose `document_id` metadata equals
`docId` (what `collection.get(where={"document_id": docId})` returns). -/
def countDoc (store : Store) (docId : String) : ℕ :=
  (store.filter fun r => r.document_id = docId).length

/-- Does this directory entry match `glob(f"{doc_id}_*")` with a suffix
other than `.json` (ingestion.py lines 225–228)?  Ids produced by
`generate_document_id` contain no glob metacharacters, so the glob is a
prefix match. -/
def isRawDocFile (doc_id n : String) : Bool :=
  (doc_id ++ "_").data.isPrefixOf n.data ∧ pathSuffix n ≠ ".json"

/-- `IngestionService.delete_document` (ingestion.py lines 207–230):
delete the matching vector-store records, then the metadata file, then
every raw document file; `deleted` reports whether a *file* was removed. -/
def delete_document (doc_id : String) (store : Store) (files : FileSys) :
    Bool × Store × FileSys :=
  let existingIds := (store.filter fun r => r.document_id = doc_id).map (·.id)
  let store := store.filter fun r => decide (r.id ∉ existingIds)
  let metaName := doc_id ++ ".json"
  let deletedMeta := files.contains metaName
  let files := files.filter fun n => decide (n ≠ metaName)
  let deletedRaw := files.any (isRawDocFile doc_id)
  let files := files.filter fun n => !isRawDocFile doc_id n
  (deletedMeta || deletedRaw, store, files)

/-! ### Retrieval scoring (`RetrievalService.search`, lines 54–78) -/

/-- Round half to even to an integer, Python's `round` on exact values.
(Python rounds binary floats; on the exact decimal ties it is
round-half-to-even, modelled here over `ℚ`.) -/
def rhe (q : ℚ) : ℤ :=
  if q - ⌊q⌋ < 1 / 2 then ⌊q⌋
  else if 1 / 2 < q - ⌊q⌋ then ⌊q⌋ + 1
  else if Even ⌊q⌋ then ⌊q⌋ else ⌊q⌋ + 1

/-- Python `round(q, 4)`. -/
def pyRound4 (q : ℚ) : ℚ := (rhe (q * 10000) : ℚ) / 10000

/-- The similarity score attached to a returned distance:
`round(max(0, 1 - distance), 4)` (retrieval.py lines 64 and 72). -/
def toScore (distance : ℚ) : ℚ := pyRound4 (max 0 (1 - distance))

/-- One row of the ChromaDB `query` result (parallel arrays zipped). -/
structure QueryRow where
  id : String
  content : String
  document_id : String
  document_name : String
  chunk_index : ℕ
  distance : ℚ
  deriving Repr, DecidableEq

/-- `SourceChunk` (schemas.py). -/
structure SourceChunk where
  document_id : String
  document_name : String
  chunk_index : ℕ
  content : String
  score : ℚ
  deriving Repr, DecidableEq

/-- The result-conversion and re-sort phase of `RetrievalService.search`
(retrieval.py lines 54–78): build a `SourceChunk` per returned row, then
sort by score descending (Python's stable `list.sort` with
`reverse=True`, i.e. a stable merge sort on `≥`). -/
def searchChunks (rows : List QueryRow) : List SourceChunk :=
  let chunks := rows.map fun r =>
    { document_id := r.document_id
      document_name := r.document_name
      chunk_index := r.chunk_index
      content := r.content
      score := toScore r.distance : SourceChunk }
  chunks.mergeSort fun a b => decide (b.score ≤ a.score)

/-! ### Prompt building and generation events (generation.py, chat.py) -/

/-- `MessageRole` (schemas.py): roles allowed in caller history. -/
inductive Role where
  | user
  | assistant
  deriving Repr, DecidableEq

/-- `MessageRole.value`. -/
def Role.value : Role → String
  | .user => "user"
  | .assistant => "assistant"

/-- `ChatMessage` (schemas.py). -/
structure ChatMessage where
  role : Role
  content : String
  deriving Repr, DecidableEq

/-- A prompt message dict: `(role, content)`. -/
abbrev Message := String × String

/-- The fixed instruction block of the system prompt
(generation.py lines 31–38). -/
def baseSystemPrompt : String :=
  "You are a helpful assistant that answers questions based on the provided document excerpts.\n\nGuidelines:\n- Answer questions using ONLY the information from the provided context\n- If the context doesn't contain enough information, say so clearly\n- Be concise but thorough\n- When relevant, mention which document(s) the information comes from\n- If asked about something not in the documents, politely explain you can only answer based on the uploaded documents"

/-- The note appended when no sources exist (generation.py line 50). -/
def noDocsNote : String :=
  "\n\nNote: No documents have been uploaded yet. Please ask the user to upload documents first."

/-- One numbered context block (generation.py lines 44–46). -/
def contextPart (i : ℕ) (src : SourceChunk) : String :=
  "[Excerpt " ++ toString i ++ " from '" ++ src.document_name ++ "']:\n"
    ++ src.content

/-- `"\n\n---\n\n".join(parts)` (generation.py line 47). -/
def joinContext : List String → String
  | [] => ""
  | [p] => p
  | p :: q :: ps => p ++ "\n\n---\n\n" ++ joinContext (q :: ps)

/-- The numbered context blocks, `enumerate(sources, 1)`. -/
def contextParts (sources : List SourceChunk) : List String :=
  (sources.enumFrom 1).map fun p => contextPart p.1 p.2

/-- The one system message's content (generation.py lines 30–50). -/
def systemContent (sources : List SourceChunk) : String :=
  if sources.isEmpty then baseSystemPrompt ++ noDocsNote
  else
    baseSystemPrompt ++ "\n\n## Document Context:\n\n"
      ++ joinContext (contextParts sources)

/-- Python `l[-n:]`. -/
def lastN (n : ℕ) (l : List α) : List α := l.drop (l.length - n)

/-- `GenerationService.build_rag_prompt` (generation.py lines 23–62).
`history` is `list[ChatMessage] | None`; `if history:` is false for both
`None` and the empty list. -/
def build_rag_prompt (question : String) (sources : List SourceChunk)
    (history : Option (List ChatMessage)) : List Message :=
  let messages : List Message := [("system", systemContent sources)]
  let messages := match history with
    | some h =>
        if h.isEmpty then messages
        else messages ++ (lastN 6 h).map fun m => (m.role.value, m.content)
    | none => messages
  messages ++ [("user", question)]

/-- A streaming event, before SSE serialization
(`{"type": ..., "data": ...}`). -/
inductive Event where
  | sources (payload : List SourceChunk)
  | content (delta : String)
  | done
  | error (msg : String)
  deriving Repr, DecidableEq

/-- The `content` events produced by the model-stream loop
(generation.py lines 107–113).  Each stream chunk is modelled as
`Option String`: `none` when `chunk.data.choices` is empty or the delta
content is `None`; the emptiness test is Python truthiness, so empty
string deltas are also skipped. -/
def contentEvents (deltas : List (Option String)) : List Event :=
  deltas.filterMap fun d =>
    match d with
    | some s => if s = "" then none else some (.content s)
    | none => none

/-- The full event sequence a consumer receives from `chat_stream`:
`generate_stream` (generation.py lines 84–119) wrapped in
`event_generator` (chat.py lines 66–79).  `deltas` are the stream chunks
consumed before the model call either finishes (`outcome = none`,
yielding `done`) or raises (`outcome = some msg`, in which case
`event_generator` catches the exception and emits one `error` event). -/
def generate_stream_events (srcs : List SourceChunk)
    (deltas : List (Option String)) (outcome : Option String) : List Event :=
  Event.sources srcs :: contentEvents deltas
    ++ [outcome.elim Event.done Event.error]

/-- Is this event terminal (`done` or `error`)? -/
def Event.isTerminal : Event → Bool
  | .done => true
  | .error _ => true
  | _ => false

/-- Is this a `content` event with non-empty payload? -/
def Event.isNonemptyContent : Event → Bool
  | .content s => s ≠ ""
  | _ => false

/-! ## Helper lemmas -/

theorem len_dropWhile_le {α : Type} (p : α → Bool) (l : List α) :
    (l.dropWhile p).length ≤ l.length := by
  induction l with
  | nil => simp
  | cons a l ih =>
    rw [List.dropWhile_cons]
    split
    · exact Nat.le_succ_of_le ih
    · simp

theorem mem_dropWhile_of_mem {α : Type} {p : α → Bool} {c : α} {l : List α}
    (hc : c ∈ l) (hp : p c = false) : c ∈ l.dropWhile p := by
  induction l with
  | nil => cases hc
  | cons a l ih =>
    rw [List.dropWhile_cons]
    split
    · rcases List.mem_cons.mp hc with rfl | h
      · simp_all
      · exact ih h
    · exact hc

theorem mem_rdropWhile_of_mem {α : Type} {p : α → Bool} {c : α} {l : List α}
    (hc : c ∈ l) (hp : p c = false) : c ∈ l.rdropWhile p := by
  rw [List.rdropWhile, List.mem_reverse]
  exact mem_dropWhile_of_mem (List.mem_reverse.mpr hc) hp

theorem head?_of_prefix {α : Type} {l₁ l₂ : List α} (h : l₁ <+: l₂)
    (hne : l₁ ≠ []) : l₂.head? = l₁.head? := by
  obtain ⟨t, rfl⟩ := h
  exact List.head?_append_of_ne_nil _ hne

theorem foldl_preserved {α β : Type} {P : β → Prop} {f : β → α → β}
    (hstep : ∀ st x, P st → P (f st x)) :
    ∀ (l : List α) (st : β), P st → P (l.foldl f st)
  | [], _, h => h
  | x :: l, st, h => foldl_preserved hstep l (f st x) (hstep st x h)

/-! ## Whitespace and stripping -/

theorem mem_pyStrip_of_mem {c : Char} {l : List Char} (hc : c ∈ l)
    (hp : isPySpace c = false) : c ∈ pyStrip l :=
  mem_rdropWhile_of_mem (mem_dropWhile_of_mem hc hp) hp

theorem pyStrip_ne_nil_of_mem {c : Char} {l : List Char} (hc : c ∈ l)
    (hp : isPySpace c = false) : pyStrip l ≠ [] :=
  List.ne_nil_of_mem (mem_pyStrip_of_mem hc hp)

theorem pyStrip_subset {l : List Char} : pyStrip l ⊆ l := fun _ hx =>
  (List.dropWhile_suffix isPySpace).subset
    (( List.rdropWhile_prefix isPySpace _).subset hx)

theorem exists_nonspace_of_pyStrip_ne_nil {l : List Char}
    (h : pyStrip l ≠ []) : ∃ c ∈ l, isPySpace c = false := by
  have hm : l.dropWhile isPySpace ≠ [] := by
    intro hnil
    exact h (by simp [pyStrip, hnil])
  refine ⟨(l.dropWhile isPySpace).head hm,
    (List.dropWhile_suffix isPySpace).subset (List.head_mem hm), ?_⟩
  have := List.head_dropWhile_not isPySpace l hm
  simpa using this

theorem pyStrip_length_le (l : List Char) : (pyStrip l).length ≤ l.length :=
  le_trans (( List.rdropWhile_prefix isPySpace _).length_le)
    (len_dropWhile_le isPySpace l)

theorem pyStrip_head?_not {l : List Char} (h : pyStrip l ≠ []) :
    ∀ c ∈ (pyStrip l).head?, isPySpace c = false := by
  intro c hc
  have hm : l.dropWhile isPySpace ≠ [] := by
    intro hnil
    exact h (by simp [pyStrip, hnil])
  have hh : (l.dropWhile isPySpace).head? = (pyStrip l).head? :=
    head?_of_prefix ( List.rdropWhile_prefix isPySpace _) h
  rw [← hh, List.head?_eq_head hm] at hc
  simp only [Option.mem_def, Option.some.injEq] at hc
  subst hc
  have h2 := List.head_dropWhile_not isPySpace l hm
  simpa using h2

theorem dropWhile_pyStrip (l : List Char) :
    (pyStrip l).dropWhile isPySpace = pyStrip l := by
  rcases hps : pyStrip l with _ | ⟨a, t⟩
  · simp
  · have ha : isPySpace a = false := by
      have hp := pyStrip_head?_not (l := l) (by rw [hps]; simp)
      rw [hps] at hp
      exact hp a rfl
    rw [List.dropWhile_cons, if_neg (by simp [ha])]

theorem rdropWhile_pyStrip (l : List Char) :
    (pyStrip l).rdropWhile isPySpace = pyStrip l := by
  show List.rdropWhile isPySpace
      (List.rdropWhile isPySpace (l.dropWhile isPySpace))
    = List.rdropWhile isPySpace (l.dropWhile isPySpace)
  exact List.rdropWhile_idempotent _ _

theorem pyStrip_idem (l : List Char) : pyStrip (pyStrip l) = pyStrip l := by
  show ((pyStrip l).dropWhile isPySpace).rdropWhile isPySpace = pyStrip l
  rw [dropWhile_pyStrip, rdropWhile_pyStrip]

theorem pyStrip_cons_space {l : List Char} {a : Char}
    (ha : isPySpace a = true) : pyStrip (a :: l) = pyStrip l := by
  unfold pyStrip
  rw [List.dropWhile_cons, if_pos ha]

theorem pyStrip_of_stripped (l : List Char) :
    pyStrip ('\n' :: '\n' :: pyStrip l) = pyStrip l := by
  rw [pyStrip_cons_space (by decide), pyStrip_cons_space (by decide),
    pyStrip_idem]

theorem collapseWsAux_length_le (b : Bool) (l : List Char) :
    (collapseWsAux b l).length ≤ l.length := by
  induction l generalizing b with
  | nil => simp [collapseWsAux]
  | cons a l ih =>
    rw [collapseWsAux]
    split
    · split
      · exact Nat.le_succ_of_le (ih true)
      · simpa using ih true
    · simpa using ih false

theorem mem_collapseWsAux {c : Char} {l : List Char}
    (hp : isPySpace c = false) (b : Bool) (hc : c ∈ l) :
    c ∈ collapseWsAux b l := by
  induction l generalizing b with
  | nil => cases hc
  | cons a l ih =>
    rw [collapseWsAux]
    rcases List.mem_cons.mp hc with rfl | h
    · rw [if_neg (by simp [hp])]
      exact List.mem_cons_self _ _
    · split
      · split
        · exact ih true h
        · exact List.mem_cons_of_mem _ (ih true h)
      · exact List.mem_cons_of_mem _ (ih false h)

theorem nl_not_mem_collapseWsAux (b : Bool) (l : List Char) :
    '\n' ∉ collapseWsAux b l := by
  induction l generalizing b with
  | nil => simp [collapseWsAux]
  | cons a l ih =>
    rw [collapseWsAux]
    split
    · split
      · exact ih true
      · intro h
        rcases List.mem_cons.mp h with h | h
        · cases h
        · exact ih true h
    · intro h
      rcases List.mem_cons.mp h with rfl | h
      · simp_all [isPySpace]
      · exact ih false h

theorem nl_not_mem_cleaned (text : String) :
    '\n' ∉ pyStrip (collapseWs text.data) := fun h =>
  nl_not_mem_collapseWsAux false text.data (pyStrip_subset h)

theorem splitParasAux_of_no_nl (acc : List Char) :
    ∀ l : List Char, '\n' ∉ l → splitParasAux acc l = [acc.reverse ++ l]
  | [], _ => by simp [splitParasAux]
  | c :: rest, h => by
    have hc : ¬('\n' = c ∨ '\n' ∈ rest) := by simpa using h
    push_neg at hc
    rw [splitParasAux.eq_def]
    split
    · simp_all
    · rename_i heq
      rw [List.cons_eq_cons] at heq
      exact absurd heq.1.symm hc.1
    · rename_i c' rest' heq
      injection heq with h1 h2
      subst h1
      subst h2
      rw [splitParasAux_of_no_nl (c :: acc) rest hc.2]
      simp

theorem splitParas_of_no_nl {l : List Char} (h : '\n' ∉ l) :
    splitParas l = [l] := by
  simpa using splitParasAux_of_no_nl [] l h

/-! ## Score conversion lemmas -/

theorem rhe_cases (q : ℚ) :
    rhe q = ⌊q⌋ ∨ (rhe q = ⌊q⌋ + 1 ∧ 1 / 2 ≤ q - ⌊q⌋) := by
  unfold rhe
  split_ifs with h1 h2 h3
  · exact Or.inl rfl
  · exact Or.inr ⟨rfl, h2.le⟩
  · exact Or.inl rfl
  · exact Or.inr ⟨rfl, not_lt.mp h1⟩

theorem rhe_intCast (n : ℤ) : rhe (n : ℚ) = n := by
  unfold rhe
  rw [Int.floor_intCast]
  norm_num

theorem rhe_nonneg {q : ℚ} (h : 0 ≤ q) : 0 ≤ rhe q := by
  have hf : (0 : ℤ) ≤ ⌊q⌋ := Int.floor_nonneg.mpr h
  rcases rhe_cases q with h1 | ⟨h1, _⟩ <;> omega

theorem rhe_le_intCast {q : ℚ} {n : ℤ} (h : q ≤ (n : ℚ)) : rhe q ≤ n := by
  have hf : ⌊q⌋ ≤ n := by
    have := Int.floor_le_floor h
    rwa [Int.floor_intCast] at this
  rcases rhe_cases q with h1 | ⟨h1, h2⟩
  · omega
  · rw [h1]
    by_contra hc
    push_neg at hc
    have hfn : ⌊q⌋ = n := by omega
    rw [hfn] at h2
    linarith

theorem toScore_zero : toScore 0 = 1 := by
  unfold toScore pyRound4
  norm_num
  rw [show ((10000 : ℚ)) = ((10000 : ℤ) : ℚ) by norm_num, rhe_intCast]
  norm_num

theorem toScore_of_one_le {d : ℚ} (h : 1 ≤ d) : toScore d = 0 := by
  unfold toScore pyRound4
  rw [max_eq_left (by linarith)]
  rw [show ((0 : ℚ) * 10000) = ((0 : ℤ) : ℚ) by norm_num, rhe_intCast]
  norm_num

theorem toScore_nonneg (d : ℚ) : 0 ≤ toScore d := by
  unfold toScore pyRound4
  have h0 : (0 : ℚ) ≤ max 0 (1 - d) := le_max_left _ _
  have := rhe_nonneg (q := max 0 (1 - d) * 10000) (by positivity)
  positivity

theorem toScore_le_one {d : ℚ} (h : 0 ≤ d) : toScore d ≤ 1 := by
  unfold toScore pyRound4
  have h1 : max 0 (1 - d) ≤ 1 := max_le (by norm_num) (by linarith)
  have h2 : max 0 (1 - d) * 10000 ≤ ((10000 : ℤ) : ℚ) := by
    push_cast
    nlinarith
  have := rhe_le_intCast h2
  rw [div_le_one (by norm_num)]
  exact_mod_cast this

/-! ## Claim theorems -/

/-- C6: for every distance value returned by the vector store, the score
attached to the corresponding `SourceChunk` is
`round(max(0, 1 - distance), 4)`: a distance of `0` yields score `1`, any
distance `≥ 1` yields score `0`, the score is never negative, and for the
store's nonnegative distances it lies in `[0, 1]`. -/
theorem score_conversion_clamped :
    (∀ d : ℚ, toScore d = pyRound4 (max 0 (1 - d)))
    ∧ toScore 0 = 1
    ∧ (∀ d : ℚ, 1 ≤ d → toScore d = 0)
    ∧ (∀ d : ℚ, 0 ≤ toScore d)
    ∧ (∀ d : ℚ, 0 ≤ d → toScore d ≤ 1)
    ∧ (∀ (rows : List QueryRow), ∀ c ∈ searchChunks rows,
        ∃ r ∈ rows, c.score = toScore r.distance) := by
  refine ⟨fun _ => rfl, toScore_zero, fun _ => toScore_of_one_le,
    toScore_nonneg, fun _ => toScore_le_one, ?_⟩
  intro rows c hc
  unfold searchChunks at hc
  rw [(List.mergeSort_perm _ _).mem_iff] at hc
  obtain ⟨r, hr, rfl⟩ := List.mem_map.mp hc
  exact ⟨r, hr, rfl⟩

/-- C7: every event sequence of the streaming path consists of exactly one
leading `sources` event, then the non-empty `content` deltas in order
(empty deltas are filtered out), then exactly one terminal event — `done`
when the model call finished, `error` when it raised — and nothing after
it. -/
theorem stream_event_protocol (srcs : List SourceChunk)
    (deltas : List (Option String)) (outcome : Option String) :
    ∃ cs : List String,
      generate_stream_events srcs deltas outcome
        = Event.sources srcs ::
            (cs.map Event.content ++ [outcome.elim Event.done Event.error])
      ∧ (∀ c ∈ cs, c ≠ "")
      ∧ (outcome.elim Event.done Event.error).isTerminal = true
      ∧ (∀ c ∈ cs, (Event.content c).isTerminal = false)
      ∧ (Event.sources srcs).isTerminal = false := by
  have key : ∀ ds : List (Option String), ∃ cs : List String,
      contentEvents ds = cs.map Event.content ∧ ∀ c ∈ cs, c ≠ "" := by
    intro ds
    induction ds with
    | nil => exact ⟨[], rfl, by simp⟩
    | cons d ds ih =>
      obtain ⟨cs, h1, h2⟩ := ih
      match d with
      | none => exact ⟨cs, by simpa [contentEvents, List.filterMap_cons] using h1, h2⟩
      | some s =>
        by_cases hs : s = ""
        · exact ⟨cs, by simpa [contentEvents, List.filterMap_cons, hs] using h1, h2⟩
        · refine ⟨s :: cs, ?_, by simpa [hs] using h2⟩
          simpa [contentEvents, List.filterMap_cons, hs] using h1
  obtain ⟨cs, h1, h2⟩ := key deltas
  refine ⟨cs, ?_, h2, ?_, fun c _ => rfl, rfl⟩
  · simp [generate_stream_events, h1]
  · cases outcome <;> rfl

/-- C10: a `.txt` upload whose bytes are not valid UTF-8 (e.g. the single
byte `0xFF`) makes extraction fail with the `UnicodeDecodeError` of
`bytes.decode("utf-8")`, an error outside the spec's taxonomy of
`UnsupportedFileType`, `EmptyContent` and `ChunkingFailed`, and
`ingest_document` propagates exactly that unclassified error. -/
theorem txt_decode_error_unclassified :
    (∀ (pdf : List ℕ → Except IngestError String) (bytes : List ℕ)
        (filename : String), lowerS (pathSuffix filename) = ".txt" →
        decodeUtf8 bytes = none →
        extract_text pdf bytes filename = .error .unicodeDecodeError)
    ∧ decodeUtf8 [255] = none
    ∧ (∀ (pdf : List ℕ → Except IngestError String)
        (embedFn : List String → List (List ℚ)) (cs ov now fileSize : ℕ)
        (store : Store) (files : FileSys),
        ingest_document pdf embedFn cs ov now [255] "notes.txt" fileSize
          store files = .error .unicodeDecodeError)
    ∧ IngestError.inTaxonomy .unicodeDecodeError = false := by
  have hextract : ∀ (pdf : List ℕ → Except IngestError String)
      (bytes : List ℕ) (filename : String),
      lowerS (pathSuffix filename) = ".txt" → decodeUtf8 bytes = none →
      extract_text pdf bytes filename = .error .unicodeDecodeError := by
    intro pdf bytes filename h1 h2
    unfold extract_text
    rw [h1, if_neg (by decide), if_pos rfl, h2]
  refine ⟨hextract, rfl, ?_, rfl⟩
  intro pdf embedFn cs ov now fileSize store files
  unfold ingest_document
  rw [hextract pdf [255] "notes.txt" (by decide) rfl]

/-- C9 counterexample: deleting a document whose chunks exist in the
vector store but whose on-disk artifacts are gone removes the chunks yet
returns `False`, so the return value is not "whether anything was
removed". -/
theorem delete_vector_only_returns_false :
    (delete_document "d" [⟨"d_chunk_0", [], "x", "d", "f.txt", 0, 1⟩] []).1
      = false
    ∧ (delete_document "d" [⟨"d_chunk_0", [], "x", "d", "f.txt", 0, 1⟩] []).2.1
      = []
    ∧ ([⟨"d_chunk_0", [], "x", "d", "f.txt", 0, 1⟩] : Store) ≠ [] := by
  refine ⟨rfl, rfl, by decide⟩

/-- C5 counterexample: changing the filename (`a.txt` to `a.md`) with the
content fixed does not change the prefix — the two ids are equal — so
"changing the filename changes the prefix" fails as stated. -/
theorem doc_id_filename_change_counterexample :
    generate_document_id "a.txt" "hello" = generate_document_id "a.md" "hello"
    ∧ ("a.txt" : String) ≠ "a.md" := by
  constructor
  · show safeStem "a.txt" ++ "_" ++ hashSuffix "hello"
      = safeStem "a.md" ++ "_" ++ hashSuffix "hello"
    rw [show safeStem "a.txt" = safeStem "a.md" from by decide]
  · decide

/-- C2: the code collapses all whitespace (including newlines) to single
spaces before splitting on `\n\n+`, so the paragraph split never fires:
on `"a\n\nb"` the code sees the single paragraph `"a b"` (and produces the
single chunk `"a b"`), while the split the spec prescribes — applied to
the original text — yields the two paragraphs `"a"`, `"b"`. -/
theorem paragraph_split_applied_after_collapse :
    paragraphsCode "a\n\nb" = ["a b".data]
    ∧ paragraphsSpec "a\n\nb" = ["a".data, "b".data]
    ∧ paragraphsCode "a\n\nb" ≠ paragraphsSpec "a\n\nb"
    ∧ chunk_text 500 50 "a\n\nb" = ["a b"] := by
  refine ⟨rfl, rfl, by decide, by decide⟩

/-! ## Store purge lemmas (shared by ingestion and deletion) -/

/-- Deleting by the ids returned from the metadata query removes every
record whose `document_id` is the queried one. -/
theorem countDoc_purge (store : Store) (d : String) :
    countDoc
      (store.filter fun r =>
        decide (r.id ∉ (store.filter fun r => r.document_id = d).map (·.id)))
      d = 0 := by
  unfold countDoc
  rw [List.length_eq_zero, List.filter_eq_nil_iff]
  intro r hr
  obtain ⟨hrs, hnot⟩ := List.mem_filter.mp hr
  rw [decide_eq_true_iff] at hnot
  intro hd
  rw [decide_eq_true_iff] at hd
  exact hnot
    (List.mem_map.mpr ⟨r, List.mem_filter.mpr ⟨hrs, by simp [hd]⟩, rfl⟩)

/-- The metadata file `{doc_id}.json` never matches the raw-file glob
`{doc_id}_*`. -/
theorem isRawDocFile_json_self (d : String) :
    isRawDocFile d (d ++ ".json") = false := by
  unfold isRawDocFile
  rw [decide_eq_false_iff_not]
  rintro ⟨hpre, -⟩
  rw [ List.isPrefixOf_iff_prefix] at hpre
  simp only [String.data_append] at hpre
  rw [List.prefix_append_right_inj] at hpre
  exact absurd hpre (by decide)

theorem any_filter_ne (meta : String) (r : String → Bool)
    (hmeta : r meta = false) (files : List String) :
    (files.filter fun n => decide (n ≠ meta)).any r = files.any r := by
  have hpt : ∀ n, (decide (n ≠ meta) && r n) = r n := by
    intro n
    by_cases hn : n = meta
    · subst hn
      simp [hmeta]
    · simp [hn]
  rw [List.any_filter]
  simp only [hpt]

/-- C9 (amended): `delete_document` removes the matching vector-store
records and both on-disk artifacts, but its boolean reports only whether
an on-disk artifact (metadata file or raw file) was removed — a deletion
that only touched vector-store entries returns `false`. -/
theorem delete_document_semantics (doc_id : String) (store : Store)
    (files : FileSys) :
    (delete_document doc_id store files).1
      = (files.contains (doc_id ++ ".json")
          || files.any (isRawDocFile doc_id))
    ∧ countDoc (delete_document doc_id store files).2.1 doc_id = 0
    ∧ (doc_id ++ ".json") ∉ (delete_document doc_id store files).2.2
    ∧ ∀ n ∈ (delete_document doc_id store files).2.2,
        isRawDocFile doc_id n = false := by
  refine ⟨?_, countDoc_purge store doc_id, ?_, ?_⟩
  · show (_ || (files.filter fun n => decide (n ≠ doc_id ++ ".json")).any
        (isRawDocFile doc_id)) = _
    rw [any_filter_ne _ _ (isRawDocFile_json_self doc_id)]
  · intro hm
    have := (List.mem_filter.mp (List.mem_filter.mp hm).1).2
    simp at this
  · intro n hn
    have := (List.mem_filter.mp hn).2
    simpa using this

/-- C5 (amended): `generate_document_id` is the pure function
`sanitize(stem(filename))[:20] ++ "_" ++ first8hex(md5(content))`; the
sanitization maps every character outside `[A-Za-z0-9]` to `_`; the
prefix depends only on the sanitized truncated stem (so a filename change
that preserves it, such as `a.txt` to `a.md`, leaves the id unchanged),
and with the filename fixed the id changes exactly when the 8-hex-digit
MD5 suffix changes. -/
theorem doc_id_structure :
    (∀ f c, generate_document_id f c = safeStem f ++ "_" ++ hashSuffix c)
    ∧ (∀ f, (safeStem f).data
        = ((pathStem f).data.map sanitizeChar).take 20)
    ∧ (∀ ch : Char,
        ¬(('a' ≤ ch ∧ ch ≤ 'z') ∨ ('A' ≤ ch ∧ ch ≤ 'Z')
            ∨ ('0' ≤ ch ∧ ch ≤ '9')) → sanitizeChar ch = '_')
    ∧ (∀ f₁ f₂ c, safeStem f₁ = safeStem f₂ →
        generate_document_id f₁ c = generate_document_id f₂ c)
    ∧ (∀ f c₁ c₂, generate_document_id f c₁ = generate_document_id f c₂
        ↔ hashSuffix c₁ = hashSuffix c₂) := by
  refine ⟨fun _ _ => rfl, fun _ => rfl, ?_, ?_, ?_⟩
  · intro ch h
    unfold sanitizeChar
    rw [if_neg h]
  · intro f₁ f₂ c h
    show safeStem f₁ ++ "_" ++ hashSuffix c = safeStem f₂ ++ "_" ++ hashSuffix c
    rw [h]
  · intro f c₁ c₂
    constructor
    · intro h
      refine String.ext ?_
      have h2 : (safeStem f).data ++ ("_".data ++ (hashSuffix c₁).data)
          = (safeStem f).data ++ ("_".data ++ (hashSuffix c₂).data) := by
        simpa [generate_document_id, String.data_append, List.append_assoc]
          using congrArg String.data h
      exact List.append_cancel_left (List.append_cancel_left h2)
    · intro h
      show safeStem f ++ "_" ++ hashSuffix c₁ = safeStem f ++ "_" ++ hashSuffix c₂
      rw [h]

/-- C1: whenever `ingest_document` completes successfully, the number of
records in the store whose `document_id` equals the returned document's
id is exactly the returned `chunk_count` — pre-existing chunks with that
id were purged before the new ones were added, never summed with them. -/
theorem ingest_replaces_chunks
    (pdf : List ℕ → Except IngestError String)
    (embedFn : List String → List (List ℚ)) (cs ov now : ℕ)
    (bytes : List ℕ) (filename : String) (fileSize : ℕ)
    (store : Store) (files : FileSys) (info : DocumentInfo)
    (store' : Store) (files' : FileSys)
    (h : ingest_document pdf embedFn cs ov now bytes filename fileSize
        store files = .ok (info, store', files')) :
    countDoc store' info.id = info.chunk_count := by
  unfold ingest_document at h
  cases hex : extract_text pdf bytes filename with
  | error e => rw [hex] at h; simp at h
  | ok text =>
    rw [hex] at h
    dsimp only at h
    split_ifs at h with h1 h2
    simp only [Except.ok.injEq, Prod.mk.injEq] at h
    obtain ⟨hinfo, hstore, -⟩ := h
    subst hinfo
    subst hstore
    show countDoc _ (generate_document_id filename text)
      = (chunk_text cs ov text).length
    rw [countDoc, List.filter_append, List.length_append]
    have hA := countDoc_purge store (generate_document_id filename text)
    rw [countDoc] at hA
    rw [hA, Nat.zero_add, List.filter_eq_self.mpr, List.length_map,
      List.length_range]
    intro a ha
    obtain ⟨i, -, rfl⟩ := List.mem_map.mp ha
    simp

/-! ## Chunker single-chunk and flush lemmas -/

theorem pyStrip_collapse_ne_nil {text : String} {c : Char}
    (hc : c ∈ text.data) (hcp : isPySpace c = false) :
    pyStrip (collapseWs text.data) ≠ [] :=
  pyStrip_ne_nil_of_mem (mem_collapseWsAux hcp false hc) hcp

/-- C3 (amended): any text containing a non-whitespace character and
shorter than `targetChars = chunkSize * 4` chunks into exactly one chunk,
equal to the whitespace-normalized (runs collapsed to single spaces),
trimmed input. -/
theorem chunk_single_short (chunkSize chunkOverlap : ℕ) (text : String)
    (hne : (text.data.any fun c => !isPySpace c) = true)
    (hlen : text.data.length < chunkSize * 4) :
    chunk_text chunkSize chunkOverlap text
      = [String.mk (pyStrip (collapseWs text.data))] := by
  obtain ⟨c, hc, hcb⟩ := List.any_eq_true.mp hne
  have hcp : isPySpace c = false := by simpa using hcb
  have htne : pyStrip (collapseWs text.data) ≠ [] :=
    pyStrip_collapse_ne_nil hc hcp
  have htlen : (pyStrip (collapseWs text.data)).length < chunkSize * 4 :=
    lt_of_le_of_lt
      (le_trans (pyStrip_length_le _) (collapseWsAux_length_le false _))
      hlen
  have hnl : '\n' ∉ pyStrip (collapseWs text.data) :=
    nl_not_mem_cleaned text
  have hidem := pyStrip_idem (collapseWs text.data)
  have hstrip := pyStrip_of_stripped (collapseWs text.data)
  have hpara : paraStep (chunkSize * 4) (chunkOverlap * 4) ⟨[], []⟩
      (pyStrip (collapseWs text.data))
      = ⟨[], '\n' :: '\n' :: pyStrip (collapseWs text.data)⟩ := by
    unfold paraStep
    dsimp only
    rw [hidem, if_neg htne, if_neg (by omega), if_neg (by simp)]
    simp
  unfold chunk_text
  rw [if_neg htne, splitParas_of_no_nl hnl]
  simp only [List.foldl_cons, List.foldl_nil, hpara, hstrip]
  rw [if_pos htne]
  simp

/-- C3 counterexample: `"a  b"` is non-empty, non-whitespace-only and far
shorter than the default `targetChars = 2000`, and chunking yields
exactly one chunk — but that chunk is `"a b"`, the whitespace-collapsed
text, not the trimmed input `"a  b"`. -/
theorem chunk_short_not_trimmed_input :
    pyStripS "a  b" = "a  b"
    ∧ ("a  b".data.any fun c => !isPySpace c) = true
    ∧ "a  b".data.length < 500 * 4
    ∧ chunk_text 500 50 "a  b" = ["a b"]
    ∧ ("a b" : String) ≠ "a  b" := by
  refine ⟨rfl, rfl, by decide, rfl, by decide⟩

/-- Witness for the amended C3 at a concrete input. -/
theorem chunk_single_short_witness :
    chunk_text 500 50 "This is a short text that fits in one chunk."
      = ["This is a short text that fits in one chunk."] :=
  (chunk_single_short 500 50 "This is a short text that fits in one chunk."
    (by decide) (by decide)).trans (by decide)

/-! ## Flush and reseed lemmas (chunker) -/

theorem tailChars_length (oc : ℕ) (l : List Char) :
    (tailChars oc l).length = min oc l.length := by
  unfold tailChars
  rw [List.length_drop]
  omega

theorem tailChars_append {oc : ℕ} {l₂ : List Char} (l₁ : List Char)
    (h : oc ≤ l₂.length) : tailChars oc (l₁ ++ l₂) = tailChars oc l₂ := by
  unfold tailChars
  rw [List.length_append]
  have heq : l₁.length + l₂.length - oc = l₁.length + (l₂.length - oc) := by
    omega
  rw [heq, List.drop_append]

theorem pyStrip_of_no_trailing {l : List Char}
    (hrd : l.rdropWhile isPySpace = l) :
    pyStrip l = l.dropWhile isPySpace := by
  unfold pyStrip
  rw [List.rdropWhile_eq_self_iff]
  intro hne
  obtain ⟨w, hw⟩ : l.dropWhile isPySpace <:+ l :=
    List.dropWhile_suffix isPySpace
  have hlne : l ≠ [] := by
    rw [← hw]
    simp [hne]
  have h1 : (l.dropWhile isPySpace).getLast? = l.getLast? := by
    conv_rhs => rw [← hw]
    exact (List.getLast?_append_of_ne_nil _ hne).symm
  rw [List.getLast?_eq_getLast _ hne, List.getLast?_eq_getLast _ hlne] at h1
  rw [Option.some.injEq] at h1
  rw [h1]
  exact List.rdropWhile_eq_self_iff.mp hrd hlne

theorem tailChars_pyStrip {oc : ℕ} {l : List Char}
    (hrd : l.rdropWhile isPySpace = l) (hoc : oc ≤ (pyStrip l).length) :
    tailChars oc l = tailChars oc (pyStrip l) := by
  have hps := pyStrip_of_no_trailing hrd
  obtain ⟨w, hw⟩ : l.dropWhile isPySpace <:+ l :=
    List.dropWhile_suffix isPySpace
  rw [hps] at hoc ⊢
  conv_lhs => rw [← hw]
  exact tailChars_append w hoc

theorem sentStep_flush (tc oc : ℕ) (st : ChunkSt) (s : List Char)
    (h1 : tc < st.buf.length + s.length) (h2 : st.buf ≠ []) :
    sentStep tc oc st s
      = ⟨st.chunks ++ [pyStrip st.buf],
         (if oc = 0 then [] else tailChars oc st.buf) ++ ' ' :: s⟩ := by
  unfold sentStep flushReseed
  dsimp only
  rw [if_pos ⟨h1, h2⟩]

theorem paraStep_flush (tc oc : ℕ) (st : ChunkSt) (p : List Char)
    (hp : pyStrip p ≠ []) (hsmall : ¬tc < (pyStrip p).length)
    (h1 : tc < st.buf.length + (pyStrip p).length) (h2 : st.buf ≠ []) :
    paraStep tc oc st p
      = ⟨st.chunks ++ [pyStrip st.buf],
         (if oc = 0 then [] else tailChars oc st.buf)
           ++ '\n' :: '\n' :: pyStrip p⟩ := by
  unfold paraStep flushReseed
  dsimp only
  rw [if_neg hp, if_neg hsmall, if_pos ⟨h1, h2⟩]

theorem sentStep_preserves (tc oc : ℕ) (st : ChunkSt) (s : List Char)
    (hP : st.chunks ≠ [] ∨ pyStrip st.buf ≠ []) :
    (sentStep tc oc st s).chunks ≠ []
      ∨ pyStrip (sentStep tc oc st s).buf ≠ [] := by
  unfold sentStep
  dsimp only
  split_ifs with hcond
  · left
    simp [flushReseed]
  · rcases hP with h | h
    · left
      exact h
    · right
      obtain ⟨c, hcm, hcp⟩ := exists_nonspace_of_pyStrip_ne_nil h
      exact pyStrip_ne_nil_of_mem (List.mem_append_left _ hcm) hcp

theorem splitSentAux_structure : ∀ (l acc : List Char),
    ∃ hd tl, splitSentAux acc l = (acc.reverse ++ hd) :: tl
      ∧ ∀ c, l.head? = some c → c ∈ hd
  | [], acc => ⟨[], [], by simp [splitSentAux], by intro c h; cases h⟩
  | c :: rest, acc => by
    by_cases hif : isSentEnd c ∧ (rest.head?.elim false isPySpace)
    · refine ⟨[c], splitSentSkip rest, ?_, ?_⟩
      · rw [splitSentAux, if_pos hif]
        simp
      · intro c' h
        simp only [List.head?_cons, Option.some.injEq] at h
        subst h
        simp
    · obtain ⟨hd, tl, heq, -⟩ := splitSentAux_structure rest (c :: acc)
      refine ⟨c :: hd, tl, ?_, ?_⟩
      · rw [splitSentAux, if_neg hif, heq]
        simp
      · intro c' h
        simp only [List.head?_cons, Option.some.injEq] at h
        subst h
        simp

/-- Any input with a non-whitespace character yields at least one chunk
(in particular a single oversized paragraph still produces a chunk). -/
theorem chunk_text_ne_nil (cs ov : ℕ) (text : String)
    (hne : (text.data.any fun c => !isPySpace c) = true) :
    chunk_text cs ov text ≠ [] := by
  obtain ⟨c, hc, hcb⟩ := List.any_eq_true.mp hne
  have hcp : isPySpace c = false := by simpa using hcb
  have htne : pyStrip (collapseWs text.data) ≠ [] :=
    pyStrip_collapse_ne_nil hc hcp
  have hnl : '\n' ∉ pyStrip (collapseWs text.data) := nl_not_mem_cleaned text
  have hidem := pyStrip_idem (collapseWs text.data)
  unfold chunk_text
  rw [if_neg htne, splitParas_of_no_nl hnl]
  simp only [List.foldl_cons, List.foldl_nil]
  unfold paraStep
  rw [hidem, if_neg htne]
  by_cases hbig : cs * 4 < (pyStrip (collapseWs text.data)).length
  · rw [if_pos hbig]
    obtain ⟨hd, tl, hsent, hmem⟩ :=
      splitSentAux_structure (pyStrip (collapseWs text.data)) []
    obtain ⟨c0, t0, htl⟩ := List.exists_cons_of_ne_nil htne
    have hh := pyStrip_head?_not (l := collapseWs text.data) htne
    have hc0 : isPySpace c0 = false := hh c0 (by rw [htl]; rfl)
    have hc0hd : c0 ∈ hd := hmem c0 (by rw [htl]; rfl)
    have hsent' : splitSentences (pyStrip (collapseWs text.data))
        = hd :: tl := by simpa [splitSentences] using hsent
    rw [hsent', List.foldl_cons]
    have hst1 : sentStep (cs * 4) (ov * 4) ⟨[], []⟩ hd = ⟨[], ' ' :: hd⟩ := by
      unfold sentStep
      dsimp only
      rw [if_neg (by simp)]
      simp
    rw [hst1]
    have hP1 : (ChunkSt.mk [] (' ' :: hd)).chunks ≠ []
        ∨ pyStrip (ChunkSt.mk [] (' ' :: hd)).buf ≠ [] :=
      Or.inr (pyStrip_ne_nil_of_mem (List.mem_cons_of_mem _ hc0hd) hc0)
    have hPfin := foldl_preserved
      (P := fun st : ChunkSt => st.chunks ≠ [] ∨ pyStrip st.buf ≠ [])
      (f := sentStep (cs * 4) (ov * 4))
      (fun st x h => sentStep_preserves (cs * 4) (ov * 4) st x h)
      tl ⟨[], ' ' :: hd⟩ hP1
    by_cases hb :
        pyStrip (tl.foldl (sentStep (cs * 4) (ov * 4)) ⟨[], ' ' :: hd⟩).buf
          ≠ []
    · rw [if_pos hb]
      simp
    · rw [if_neg hb]
      rcases hPfin with hch | hbuf
      · intro hmap
        exact hch (List.map_eq_nil_iff.mp hmap)
      · exact absurd hbuf hb
  · rw [if_neg hbig]
    rw [if_neg (show ¬(cs * 4 < ([] : List Char).length
        + (pyStrip (collapseWs text.data)).length
        ∧ ([] : List Char) ≠ ([] : List Char)) by simp)]
    dsimp only
    simp only [List.nil_append]
    have hstrip := pyStrip_of_stripped (collapseWs text.data)
    rw [hstrip, if_pos htne]
    simp

/-- C4 (amended): at every flush — in the sentence loop and in the
paragraph loop alike — the buffer is emitted as its *stripped* contents
and reseeded with the trailing `overlapChars` characters of the
*pre-strip* buffer (empty when `overlapChars = 0`).  The reseed has
length `min overlapChars (buffer length)`; it equals the trailing
`overlapChars` characters of the flushed chunk whenever the buffer has no
trailing whitespace and `overlapChars` is at most the flushed chunk's
length, but because it is cut from the un-stripped buffer it can exceed
the flushed chunk's size by the buffer's leading whitespace (see the
counterexample).  A single paragraph larger than the overlap window still
produces at least one chunk. -/
theorem flush_reseed_semantics :
    (∀ (tc oc : ℕ) (st : ChunkSt) (s : List Char),
        tc < st.buf.length + s.length → st.buf ≠ [] →
        sentStep tc oc st s
          = ⟨st.chunks ++ [pyStrip st.buf],
             (if oc = 0 then [] else tailChars oc st.buf) ++ ' ' :: s⟩)
    ∧ (∀ (tc oc : ℕ) (st : ChunkSt) (p : List Char),
        pyStrip p ≠ [] → ¬tc < (pyStrip p).length →
        tc < st.buf.length + (pyStrip p).length → st.buf ≠ [] →
        paraStep tc oc st p
          = ⟨st.chunks ++ [pyStrip st.buf],
             (if oc = 0 then [] else tailChars oc st.buf)
               ++ '\n' :: '\n' :: pyStrip p⟩)
    ∧ (∀ (oc : ℕ) (l : List Char), (tailChars oc l).length = min oc l.length)
    ∧ (∀ (oc : ℕ) (l : List Char), l.rdropWhile isPySpace = l →
        oc ≤ (pyStrip l).length → tailChars oc l = tailChars oc (pyStrip l))
    ∧ (∀ (cs ov : ℕ) (text : String),
        (text.data.any fun c => !isPySpace c) = true →
        chunk_text cs ov text ≠ []) :=
  ⟨sentStep_flush, paraStep_flush, tailChars_length,
    fun _ _ h1 h2 => tailChars_pyStrip h1 h2, chunk_text_ne_nil⟩

/-- C4 counterexample: running `chunk_text 2 2` (so `targetChars = 8`,
`overlapChars = 8`) on `"Hi. xxxxxxxxx"`, the flush that emits the chunk
`"Hi."` (3 characters) reseeds the buffer with the trailing 8 characters
of the *pre-strip* buffer `" Hi."` — that is, with `" Hi."` itself, 4
characters — which is not the trailing 8 characters of the flushed chunk
(`"Hi."`) and exceeds the flushed chunk's size. -/
theorem reseed_exceeds_flushed_chunk :
    splitSentences ("Hi. xxxxxxxxx".data)
      = ["Hi.".data, "xxxxxxxxx".data]
    ∧ List.foldl (sentStep 8 8) ⟨[], []⟩ ["Hi.".data, "xxxxxxxxx".data]
        = ⟨["Hi.".data], " Hi. xxxxxxxxx".data⟩
    ∧ sentStep 8 8 ⟨[], " Hi.".data⟩ "xxxxxxxxx".data
        = ⟨["Hi.".data], " Hi. xxxxxxxxx".data⟩
    ∧ tailChars 8 " Hi.".data = " Hi.".data
    ∧ (" Hi.".data).length = 4
    ∧ ("Hi.".data).length = 3
    ∧ tailChars 8 ("Hi.".data) = "Hi.".data
    ∧ tailChars 8 " Hi.".data ≠ tailChars 8 ("Hi.".data)
    ∧ chunk_text 2 2 "Hi. xxxxxxxxx" = ["Hi.", "Hi. xxxxxxxxx"] := by
  refine ⟨by decide, by decide, by decide, by decide, by decide, by decide,
    by decide, by decide, by decide⟩

/-- Witness for the amended C4 at concrete inputs. -/
theorem flush_reseed_semantics_witness :
    sentStep 8 2 ⟨[], " Hi.".data⟩ "xxxxxxxxx".data
      = ⟨["Hi.".data],
         (if 2 = 0 then [] else tailChars 2 " Hi.".data)
           ++ ' ' :: "xxxxxxxxx".data⟩
    ∧ tailChars 2 " Hi.".data = tailChars 2 (pyStrip " Hi.".data)
    ∧ chunk_text 1 1 "ab" ≠ [] :=
  ⟨flush_reseed_semantics.1 8 2 ⟨[], " Hi.".data⟩ "xxxxxxxxx".data
      (by decide) (by decide),
   flush_reseed_semantics.2.2.2.1 2 " Hi.".data (by decide) (by decide),
   flush_reseed_semantics.2.2.2.2 1 1 "ab" (by decide)⟩

set_option maxRecDepth 1000000 in
/-- Witness for C1 at a concrete run: re-ingesting `"hello"` as `a.txt`
over a store already holding an older chunk for the same document id
leaves exactly one record with that id. -/
theorem ingest_replaces_chunks_witness :
    countDoc
      [⟨"a_5d41402a_chunk_0", [], "hello", "a_5d41402a", "a.txt", 0, 1⟩]
      "a_5d41402a" = 1 :=
  ingest_replaces_chunks
    (fun _ => Except.error IngestError.emptyContent)
    (fun l => l.map fun _ => ([] : List ℚ)) 500 50 7
    [104, 101, 108, 108, 111] "a.txt" 5
    [⟨"a_5d41402a_chunk_0", [], "old", "a_5d41402a", "a.txt", 0, 1⟩]
    ["a_5d41402a.json"]
    ⟨"a_5d41402a", "a.txt", "txt", 1, 7, 5⟩
    [⟨"a_5d41402a_chunk_0", [], "hello", "a_5d41402a", "a.txt", 0, 1⟩]
    ["a_5d41402a.json", "a_5d41402a_a.txt"]
    (by rfl)

/-! ## Prompt structure lemmas -/

theorem infix_append_right {α : Type} {x a : List α} (b : List α)
    (h : x <:+: a) : x <:+: a ++ b := by
  obtain ⟨s, t, rfl⟩ := h
  exact ⟨s, t ++ b, by simp⟩

theorem infix_append_left {α : Type} {x b : List α} (a : List α)
    (h : x <:+: b) : x <:+: a ++ b := by
  obtain ⟨s, t, rfl⟩ := h
  exact ⟨a ++ s, t, by simp⟩

theorem content_infix_contextPart (i : ℕ) (src : SourceChunk) :
    src.content.data <:+: (contextPart i src).data :=
  ⟨("[Excerpt " ++ toString i ++ " from '" ++ src.document_name
      ++ "']:\n").data, [],
   by simp [contextPart, String.data_append]⟩

theorem content_infix_joinContext :
    ∀ (ss : List SourceChunk) (n : ℕ) (src : SourceChunk), src ∈ ss →
      src.content.data
        <:+: (joinContext
          ((ss.enumFrom n).map fun p => contextPart p.1 p.2)).data
  | [], _, _, h => absurd h (List.not_mem_nil _)
  | s :: ss, n, src, h => by
    rcases List.mem_cons.mp h with rfl | hmem
    · cases ss with
      | nil =>
        simpa [joinContext] using content_infix_contextPart n src
      | cons s2 ss2 =>
        have h1 := content_infix_contextPart n src
        simp only [List.enumFrom_cons, List.map_cons, joinContext,
          String.data_append, List.append_assoc]
        exact infix_append_right _ h1
    · cases ss with
      | nil => exact absurd hmem (List.not_mem_nil _)
      | cons s2 ss2 =>
        have ih := content_infix_joinContext (s2 :: ss2) (n + 1) src hmem
        simp only [List.enumFrom_cons, List.map_cons, joinContext,
          String.data_append, List.append_assoc] at ih ⊢
        exact infix_append_left _ (infix_append_left _ ih)

theorem noDocs_note_present : noDocsNote.data <:+: (systemContent []).data := by
  unfold systemContent
  rw [if_pos (by rfl)]
  exact ⟨baseSystemPrompt.data, [], by simp [String.data_append]⟩

theorem content_infix_systemContent {sources : List SourceChunk}
    (src : SourceChunk) (h : src ∈ sources) :
    src.content.data <:+: (systemContent sources).data := by
  have hne : sources ≠ [] := List.ne_nil_of_mem h
  unfold systemContent
  rw [if_neg (by simpa [List.isEmpty_iff] using hne)]
  simp only [String.data_append, List.append_assoc]
  exact infix_append_left _ (infix_append_left _
    (content_infix_joinContext sources 1 src h))

/-- C8: `build_rag_prompt` is a pure function whose result is one system
message first (containing the no-documents notice when `sources` is
empty, and each source's content verbatim when not), then the verbatim
image of a suffix of the history of at most 6 messages, in original
order, with the current question as the final user message. -/
theorem prompt_structure (question : String) (sources : List SourceChunk)
    (history : Option (List ChatMessage)) :
    (∃ hs : List ChatMessage,
        build_rag_prompt question sources history
          = ("system", systemContent sources)
              :: ((hs.map fun m => (m.role.value, m.content))
                ++ [("user", question)])
        ∧ hs.length ≤ 6 ∧ hs <:+ history.getD [])
    ∧ (sources = [] → noDocsNote.data <:+: (systemContent sources).data)
    ∧ (∀ src ∈ sources,
        src.content.data <:+: (systemContent sources).data) := by
  refine ⟨?_, ?_, fun src h => content_infix_systemContent src h⟩
  · match history with
    | none =>
      exact ⟨[], by simp [build_rag_prompt], by simp, by simp⟩
    | some h =>
      by_cases hh : h.isEmpty
      · refine ⟨[], by simp [build_rag_prompt, hh], by simp, ?_⟩
        simp [List.nil_suffix]
      · refine ⟨lastN 6 h, ?_, ?_, ?_⟩
        · simp [build_rag_prompt, hh]
        · unfold lastN
          rw [List.length_drop]
          omega
        · exact List.drop_suffix _ _
  · intro h
    subst h
    exact noDocs_note_present

end Rag
